import Mathlib

/-!
Verification of the discovery pipeline implemented in
generate_tools_json.py: the entrypoint resolver, the rate-limit wait, the
paginated search loop, the sqlite upsert gateway and the driver are
shallowly embedded as pure Lean functions over explicit probe responses,
and their specified properties are proved below.
-/

namespace GoManager

/-- Fixed ordered list of search queries (SEARCH_QUERIES). -/
def SEARCH_QUERIES : List String :=
  ["topic:go+topic:cli",
   "topic:golang+topic:cli",
   "topic:go+topic:tool",
   "topic:golang+topic:tool",
   "topic:go+topic:devtools",
   "language:go+topic:cli",
   "language:go+topic:command-line"]

/-- Maximum pages fetched per query (MAX_PAGES_PER_QUERY). -/
def MAX_PAGES_PER_QUERY : Nat := 3

/-- Rate limit safety margin (RATE_LIMIT_BUFFER). -/
def RATE_LIMIT_BUFFER : Int := 10

/-- Parsed rate-limit data of a response: the X-RateLimit-Remaining header
(default 999 when absent) and the X-RateLimit-Reset header (default 0). -/
structure RateInfo where
  remaining : Int
  reset : Int
deriving DecidableEq

/-- Sleep performed by api_get after receiving a response, as a function of
the parsed headers and the current clock: some duration when it sleeps,
none when it proceeds without sleeping. -/
def api_get_sleep (info : RateInfo) (now : Int) : Option Int :=
  if info.remaining < RATE_LIMIT_BUFFER then
    some (max (info.reset - now) 0 + 5)
  else
    none

/-- Sleep performed by check_rate_limit: on a non-200 status it returns at
once; otherwise it reads remaining and reset from the body (defaults 999
and 0, already folded into the RateInfo argument) and sleeps exactly when
remaining is below the buffer. -/
def check_rate_limit_sleep (status : Nat) (info : RateInfo) (now : Int) : Option Int :=
  if status ≠ 200 then none
  else if info.remaining < RATE_LIMIT_BUFFER then
    some (max (info.reset - now) 0 + 5)
  else
    none

/-- One entry of a Contents-API directory listing: its name and its type
string (the code compares the type against "dir"). -/
structure DirEntry where
  name : String
  type : String
deriving DecidableEq

/-- Response to the Contents-API probe of the cmd path: a non-200 status, a
200 whose JSON body is a single-file object (not a list), or a 200 whose
body is a directory listing. -/
inductive ContentsResult
  | error
  | file
  | listing (entries : List DirEntry)
deriving DecidableEq

/-- Probe environment of one repository: the response to the contents probe
of cmd, the existence probe for each root-level path (check_file_exists,
true exactly when that probe returns 200), and the latest-release response
(releaseOk is true exactly when the status is 200; releaseTag is the
tag_name field of the body when present). -/
structure RepoWorld where
  cmdContents : ContentsResult
  fileExists : String → Bool
  releaseOk : Bool
  releaseTag : Option String

/-- Candidate goreleaser configuration paths, in probe order. -/
def goreleaserPaths : List String :=
  [".goreleaser.yml", ".goreleaser.yaml", "goreleaser.yml", "goreleaser.yaml"]

/-- has_goreleaser_config together with its probe trace: checks the
candidate paths in order and stops at the first hit; the second component
lists the paths actually probed. -/
def has_goreleaser_config : List String → (String → Bool) → Bool × List String
  | [], _ => (false, [])
  | p :: ps, ex =>
      if ex p then (true, [p])
      else
        let r := has_goreleaser_config ps ex
        (r.1, p :: r.2)

/-- find_cli_entrypoints: returns the list of (binary_name,
package_path_suffix) pairs, together with the trace of Contents-API paths
probed in order. Rule 1 collects the directory-typed entries of the cmd
listing; when it yields nothing the root main.go probe is tried; when that
fails the goreleaser probes are tried. -/
def find_cli_entrypoints (w : RepoWorld) (repo_name : String) :
    List (String × String) × List String :=
  let fromCmd :=
    match w.cmdContents with
    | .listing entries =>
        (entries.filter (fun e => e.type == "dir")).map
          (fun e => (e.name, "cmd/" ++ e.name))
    | _ => []
  if fromCmd ≠ [] then (fromCmd, ["cmd"])
  else if w.fileExists "main.go" then ([(repo_name, "")], ["cmd", "main.go"])
  else
    let g := has_goreleaser_config goreleaserPaths w.fileExists
    if g.1 then ([(repo_name, "")], "cmd" :: "main.go" :: g.2)
    else ([], "cmd" :: "main.go" :: g.2)

/-- get_latest_release: a non-200 response yields the literal "latest",
otherwise the tag_name of the body, defaulting to "latest" when absent. -/
def get_latest_release (w : RepoWorld) : String :=
  if w.releaseOk then w.releaseTag.getD "latest" else "latest"

/-- One repository record of a search result page, with the fields main
reads; optional fields model dict.get with its defaults. -/
structure SearchItem where
  id : Int
  ownerLogin : String
  name : String
  description : Option String
  stargazers_count : Option Int
  html_url : Option String
deriving DecidableEq

/-- Key under which a repository is recorded in the scanned set. -/
def repoKey (item : SearchItem) : String := item.ownerLogin ++ "/" ++ item.name

/-- Response to one search request: a non-200 status, or a 200 with its
items collection. -/
inductive SearchResponse
  | failure (status : Nat)
  | success (items : List SearchItem)
deriving DecidableEq

/-- Whether the page loop continues past this response: only a 200 with a
non-empty items collection does. -/
def isContinue : SearchResponse → Bool
  | .failure _ => false
  | .success items => !items.isEmpty

/-- Accumulated state of search_go_tools: ids seen so far and the repos
collected so far. -/
structure SearchState where
  seen_ids : List Int
  all_repos : List SearchItem
deriving DecidableEq

/-- Inner loop over the items of one page: an item is collected when its id
was not seen before and its key is not in the scanned set. -/
def processItems (scanned : List String) : List SearchItem → SearchState → SearchState
  | [], st => st
  | item :: rest, st =>
      let st' :=
        if !st.seen_ids.contains item.id && !scanned.contains (repoKey item) then
          SearchState.mk (st.seen_ids ++ [item.id]) (st.all_repos ++ [item])
        else st
      processItems scanned rest st'

/-- Page loop of one query, with the number of remaining page fetches as
fuel (the loop runs pages 1 to MAX_PAGES_PER_QUERY): a non-200 response or
an empty items collection stops the loop after that fetch; the second
component counts the pages actually requested. -/
def runQueryPages (s : Nat → SearchResponse) (scanned : List String) :
    Nat → Nat → SearchState → SearchState × Nat
  | 0, _, st => (st, 0)
  | fuel + 1, page, st =>
      match s page with
      | .failure _ => (st, 1)
      | .success items =>
          if items.isEmpty then (st, 1)
          else
            let st' := processItems scanned items st
            let r := runQueryPages s scanned fuel (page + 1) st'
            (r.1, r.2 + 1)

/-- Outer loop over the query list; the second component records, for each
query in order, how many pages were requested for it. -/
def runQueries (s : String → Nat → SearchResponse) (scanned : List String) :
    List String → SearchState → SearchState × List Nat
  | [], st => (st, [])
  | q :: qs, st =>
      let r := runQueryPages (s q) scanned MAX_PAGES_PER_QUERY 1 st
      let rest := runQueries s scanned qs r.1
      (rest.1, r.2 :: rest.2)

/-- search_go_tools: iterates every query of SEARCH_QUERIES, paginating
each, deduplicating by id and skipping repos already in the scanned set;
the second component is the per-query page-request trace. -/
def search_go_tools (s : String → Nat → SearchResponse) (scanned : List String) :
    List SearchItem × List Nat :=
  let r := runQueries s scanned SEARCH_QUERIES (SearchState.mk [] [])
  (r.1.all_repos, r.2)

/-- One row of the binaries table, with the schema of init_database. -/
structure BinaryRow where
  name : String
  package : String
  version : String
  description : String
  repo_url : String
  stars : Int
  build_status : String
  build_flags : String
  build_error : Option String
  last_verified : Option String
  created_at : String
  updated_at : String
deriving DecidableEq

/-- Row created by the INSERT branch of the upsert: the six explicit
columns of the statement, the rest filled by the schema defaults of
init_database (build_status defaults to "unknown", build_flags to an empty
JSON object, build_error and last_verified to NULL, both timestamps to the
current time). -/
def newRow (now name package version description repo_url : String) (stars : Int) :
    BinaryRow :=
  { name := name
    package := package
    version := version
    description := description
    repo_url := repo_url
    stars := stars
    build_status := "unknown"
    build_flags := "\x7b\x7d"
    build_error := none
    last_verified := none
    created_at := now
    updated_at := now }

/-- Update applied by the ON CONFLICT branch: exactly version, description,
repo_url, stars and updated_at are set; every other column is kept. -/
def refreshRow (now version description repo_url : String) (stars : Int)
    (r : BinaryRow) : BinaryRow :=
  { r with
    version := version
    description := description
    repo_url := repo_url
    stars := stars
    updated_at := now }

/-- upsert_binary: executes INSERT .. ON CONFLICT(package) DO UPDATE and
returns the new table together with the Python return value, which is
cursor.lastrowid is not None and cursor.rowcount == 1. Per the sqlite3
bindings, after executing this INSERT statement cursor.lastrowid is the
last insert rowid of the connection, an integer in both branches (the
fresh rowid after an insert; the previous value, initially 0, after a
conflict update), and cursor.rowcount is the number of changed rows, which
is 1 in both branches because sqlite counts the conflicting row it updates
as a change. -/
def upsert_binary (db : List BinaryRow)
    (now name package version description repo_url : String) (stars : Int) :
    List BinaryRow × Bool :=
  let conflict := db.any (fun r => r.package == package)
  let db' :=
    if conflict then
      db.map (fun r =>
        if r.package == package then refreshRow now version description repo_url stars r
        else r)
    else db ++ [newRow now name package version description repo_url stars]
  let rowcount : Int := 1
  let lastrowid : Option Int := some (if conflict then 0 else (db.length : Int) + 1)
  (db', lastrowid.isSome && rowcount == 1)

/-- get_existing_packages: the package column of every row. -/
def get_existing_packages (db : List BinaryRow) : List String :=
  db.map (fun r => r.package)

/-- Package reference composed in main: the root form omits the suffix
segment (an empty suffix is falsy in Python). -/
def packagePath (owner repo_name suffix : String) : String :=
  if suffix ≠ "" then "github.com/" ++ owner ++ "/" ++ repo_name ++ "/" ++ suffix
  else "github.com/" ++ owner ++ "/" ++ repo_name

/-- Repository metadata main passes down to the upserts. -/
structure RepoMeta where
  owner : String
  repo_name : String
  version : String
  description : String
  repo_url : String
  stars : Int

/-- Accumulator of the per-entrypoint loop in main: the table, the
existing-packages cache and the new-binaries counter. -/
structure UpsertAcc where
  db : List BinaryRow
  existing : List String
  count : Nat
deriving DecidableEq

/-- Per-entrypoint loop of main: compose the package reference and, only
when it is not already in the cache, upsert it, add it to the cache and
bump the counter. -/
def processEntrypoints (now : String) (m : RepoMeta) :
    List (String × String) → UpsertAcc → UpsertAcc
  | [], acc => acc
  | ep :: rest, acc =>
      let pp := packagePath m.owner m.repo_name ep.2
      let acc' :=
        if acc.existing.contains pp then acc
        else
          UpsertAcc.mk
            (upsert_binary acc.db now ep.1 pp m.version m.description m.repo_url m.stars).1
            (acc.existing ++ [pp])
            (acc.count + 1)
      processEntrypoints now m rest acc'

/-- Set insertion for the scanned set, modelled as a duplicate-free list. -/
def setAdd (s : List String) (k : String) : List String :=
  if s.contains k then s else s ++ [k]

/-- State threaded through the driver loop of main. -/
structure DriveState where
  db : List BinaryRow
  existing : List String
  scanned : List String
  count : Nat
deriving DecidableEq

/-- Body of the driver loop of main for one repository: resolve its
entrypoints; when some were found, fetch the latest release and run the
per-entrypoint loop; in every case add the repo key to the scanned set. -/
def processRepo (repoWorld : String → String → RepoWorld) (now : String)
    (item : SearchItem) (st : DriveState) : DriveState :=
  let owner := item.ownerLogin
  let repo_name := item.name
  let repo_key := owner ++ "/" ++ repo_name
  let description := item.description.getD ""
  let stars := (item.stargazers_count).getD 0
  let repo_url := item.html_url.getD ("https://github.com/" ++ repo_key)
  let w := repoWorld owner repo_name
  let eps := (find_cli_entrypoints w repo_name).1
  let acc :=
    if eps.isEmpty then UpsertAcc.mk st.db st.existing st.count
    else
      let version := get_latest_release w
      processEntrypoints now (RepoMeta.mk owner repo_name version description repo_url stars)
        eps (UpsertAcc.mk st.db st.existing st.count)
  DriveState.mk acc.db acc.existing (setAdd st.scanned repo_key) acc.count

/-- Driver loop of main over the collected repositories. -/
def driveRepos (repoWorld : String → String → RepoWorld) (now : String) :
    List SearchItem → DriveState → DriveState
  | [], st => st
  | item :: rest, st => driveRepos repoWorld now rest (processRepo repoWorld now item st)

/-- Fixed external environment of one run: the search responses and, per
owner and repo, the probe environment of that repository. -/
structure World where
  search : String → Nat → SearchResponse
  repoWorld : String → String → RepoWorld

/-- Observable outcome of one run of main. -/
structure RunResult where
  db : List BinaryRow
  scanned : List String
  count : Nat
  visited : List String

/-- main: seed the existing-packages cache from the store, search with the
scanned set as filter, drive every collected repository, and save; visited
records the repo keys for which contents and release probes were issued,
which are exactly the collected repositories in order. -/
def mainRun (w : World) (now : String) (db0 : List BinaryRow) (scanned0 : List String) :
    RunResult :=
  let existing := get_existing_packages db0
  let repos := (search_go_tools w.search scanned0).1
  let st := driveRepos w.repoWorld now repos (DriveState.mk db0 existing scanned0 0)
  RunResult.mk st.db st.scanned st.count (repos.map repoKey)

/-- Items of the fetched pages of one query, in processing order: the
stream of items the dedupe loop of search_go_tools sees for this query.
Only a 200 page with a non-empty collection contributes items and lets
the loop continue, mirroring runQueryPages. -/
def pageItems (s : Nat → SearchResponse) : Nat → Nat → List SearchItem
  | 0, _ => []
  | fuel + 1, page =>
      match s page with
      | .failure _ => []
      | .success items =>
          if items.isEmpty then [] else items ++ pageItems s fuel (page + 1)

/-- Items fed through the dedupe loop over a whole query list, in order.
This stream depends only on the search responses, not on the scanned set,
so two runs against unchanged responses see the same stream. -/
def seenItems (s : String → Nat → SearchResponse) : List String → List SearchItem
  | [] => []
  | q :: qs => pageItems (s q) MAX_PAGES_PER_QUERY 1 ++ seenItems s qs

/-- Consistency of the search collaborator: two result items carrying the
same repository id name the same repository key, across all queries and
pages. -/
def ConsistentSearch (s : String → Nat → SearchResponse) : Prop :=
  ∀ q p q' p' items items' i i',
    s q p = SearchResponse.success items → i ∈ items →
    s q' p' = SearchResponse.success items' → i' ∈ items' →
    i.id = i'.id → repoKey i = repoKey i'

/-- Concrete search item used as a test vector. -/
def exItem : SearchItem := SearchItem.mk 1 "x" "y" none (some 5) none

/-- Concrete collaborator environment used as a test vector: every search
page returns the one item, and its repository has a root main.go and a
tagged release. -/
def exWorld : World :=
  World.mk (fun _ _ => SearchResponse.success [exItem])
    (fun _ _ => RepoWorld.mk ContentsResult.error (fun p => p == "main.go") true (some "v1"))

/-! Resolver lemmas -/

/-- Appending to the cmd prefix never yields the empty suffix. -/
theorem cmd_suffix_ne_empty (t : String) : "cmd/" ++ t ≠ "" := by
  intro h
  have h2 := congrArg String.length h
  simp [String.length_append] at h2
  exact (by decide : ¬ "cmd/".length = 0) h2.1

/-- Structural case split on the resolver result: rule 1 fires on a
listing with directory entries, otherwise the result is the root
singleton or empty. -/
theorem find_cli_cases (w : RepoWorld) (repo_name : String) :
    (find_cli_entrypoints w repo_name).1 = [] ∨
    (∃ entries, w.cmdContents = ContentsResult.listing entries ∧
       (find_cli_entrypoints w repo_name).1 =
         (entries.filter (fun e => e.type == "dir")).map
           (fun e => (e.name, "cmd/" ++ e.name)) ∧
       entries.filter (fun e => e.type == "dir") ≠ []) ∨
    (find_cli_entrypoints w repo_name).1 = [(repo_name, "")] := by
  unfold find_cli_entrypoints
  cases hc : w.cmdContents with
  | error =>
      by_cases h2 : w.fileExists "main.go"
      · simp [h2]
      · by_cases h3 : (has_goreleaser_config goreleaserPaths w.fileExists).1
        · simp [h2, h3]
        · simp [h2, h3]
  | file =>
      by_cases h2 : w.fileExists "main.go"
      · simp [h2]
      · by_cases h3 : (has_goreleaser_config goreleaserPaths w.fileExists).1
        · simp [h2, h3]
        · simp [h2, h3]
  | listing entries =>
      by_cases hne :
          (entries.filter (fun e => e.type == "dir")).map
            (fun e => (e.name, "cmd/" ++ e.name)) = []
      · have hfe : entries.filter (fun e => e.type == "dir") = [] := by
          simpa using hne
        by_cases h2 : w.fileExists "main.go"
        · simp [hne, h2]
        · by_cases h3 : (has_goreleaser_config goreleaserPaths w.fileExists).1
          · simp [hne, h2, h3]
          · simp [hne, h2, h3]
      · right; left
        refine ⟨entries, rfl, ?_, ?_⟩
        · simp [hne]
        · intro hfe
          exact hne (by simp [hfe])

/-- C1: when the contents probe of the cmd path returns a directory
listing with at least one directory-typed entry, find_cli_entrypoints
returns exactly one entrypoint (d, "cmd/" ++ d) per directory-typed entry
d, in listing order, excluding file-typed entries, and its probe trace is
just the cmd probe, so no later rule is ever tried, whatever the root
files of the repository look like. -/
theorem cmd_rule_short_circuit (w : RepoWorld) (repo_name : String)
    (entries : List DirEntry)
    (hcmd : w.cmdContents = ContentsResult.listing entries)
    (hne : entries.filter (fun e => e.type == "dir") ≠ []) :
    find_cli_entrypoints w repo_name =
      ((entries.filter (fun e => e.type == "dir")).map
          (fun e => (e.name, "cmd/" ++ e.name)),
       ["cmd"]) := by
  have hmapne : (entries.filter (fun e => e.type == "dir")).map
      (fun e => (e.name, "cmd/" ++ e.name)) ≠ [] := by
    intro h
    exact hne (by simpa using h)
  unfold find_cli_entrypoints
  rw [hcmd]
  simp [hmapne]

/-- Witness for C1: a listing with two directory entries and one file
entry, over a repository that also has a root main file. -/
theorem cmd_rule_short_circuit_witness :
    find_cli_entrypoints
      (RepoWorld.mk
        (ContentsResult.listing
          [DirEntry.mk "a" "dir", DirEntry.mk "x" "file", DirEntry.mk "b" "dir"])
        (fun _ => true) true none) "tool" =
      ([("a", "cmd/a"), ("b", "cmd/b")], ["cmd"]) := by
  have h := cmd_rule_short_circuit
    (RepoWorld.mk
      (ContentsResult.listing
        [DirEntry.mk "a" "dir", DirEntry.mk "x" "file", DirEntry.mk "b" "dir"])
      (fun _ => true) true none) "tool"
    [DirEntry.mk "a" "dir", DirEntry.mk "x" "file", DirEntry.mk "b" "dir"]
    rfl (by decide)
  rw [h]
  rfl

/-- C2: when rule 1 produced nothing because the cmd probe returned a
non-200 status, a single-file descriptor, or a listing without a single
directory-typed entry, and the root main.go probe succeeds, the resolver
returns exactly the one entrypoint (repo_name, "") and its probe trace
shows that rule 2 was reached only after rule 1 and that no later probe
was issued. -/
theorem root_main_fallback (w : RepoWorld) (repo_name : String)
    (h1 : ∀ entries, w.cmdContents = ContentsResult.listing entries →
        entries.filter (fun e => e.type == "dir") = [])
    (h2 : w.fileExists "main.go" = true) :
    find_cli_entrypoints w repo_name = ([(repo_name, "")], ["cmd", "main.go"]) := by
  unfold find_cli_entrypoints
  cases hc : w.cmdContents with
  | error => simp [h2]
  | file => simp [h2]
  | listing entries => simp [h1 entries hc, h2]

/-- Witness for C2: a repository whose cmd probe is a 404 and whose root
main.go exists. -/
theorem root_main_fallback_witness :
    find_cli_entrypoints
      (RepoWorld.mk ContentsResult.error (fun p => p == "main.go") true none) "tool" =
      ([("tool", "")], ["cmd", "main.go"]) := by
  exact root_main_fallback
    (RepoWorld.mk ContentsResult.error (fun p => p == "main.go") true none) "tool"
    (by intro entries h; cases h) (by decide)

/-- C10: shape invariant of the resolver result for every possible probe
environment: the result is empty, or it maps the nonempty list of
directory-typed entries of the cmd listing to pairs (d, "cmd/" ++ d), or
it is exactly the singleton (repo_name, ""); moreover any entrypoint with
an empty suffix is the sole element of the result and carries the
fallback repository name. -/
theorem resolver_result_shape (w : RepoWorld) (repo_name : String) :
    ((find_cli_entrypoints w repo_name).1 = [] ∨
     (∃ entries, w.cmdContents = ContentsResult.listing entries ∧
        (find_cli_entrypoints w repo_name).1 ≠ [] ∧
        (find_cli_entrypoints w repo_name).1 =
          (entries.filter (fun e => e.type == "dir")).map
            (fun e => (e.name, "cmd/" ++ e.name))) ∨
     (find_cli_entrypoints w repo_name).1 = [(repo_name, "")]) ∧
    (∀ b s, (b, s) ∈ (find_cli_entrypoints w repo_name).1 → s = "" →
      (find_cli_entrypoints w repo_name).1 = [(b, s)] ∧ b = repo_name) := by
  rcases find_cli_cases w repo_name with h | ⟨entries, hc, heq, hfe⟩ | h
  · constructor
    · exact Or.inl h
    · intro b s hmem _
      rw [h] at hmem
      cases hmem
  · constructor
    · refine Or.inr (Or.inl ⟨entries, hc, ?_, heq⟩)
      rw [heq]
      intro hnil
      exact hfe (by simpa using hnil)
    · intro b s hmem hs
      rw [heq] at hmem
      rcases List.mem_map.mp hmem with ⟨e, _, hpair⟩
      have hsuf : s = "cmd/" ++ e.name := (Prod.mk.injEq _ _ _ _).mp hpair.symm |>.2
      exact absurd hs.symm (by rw [hsuf]; exact fun hh => cmd_suffix_ne_empty e.name hh.symm)
  · constructor
    · exact Or.inr (Or.inr h)
    · intro b s hmem _
      rw [h] at hmem
      rcases List.mem_singleton.mp hmem with hpair
      have hb : b = repo_name := ((Prod.mk.injEq _ _ _ _).mp hpair).1
      have hs0 : s = "" := ((Prod.mk.injEq _ _ _ _).mp hpair).2
      subst hb hs0
      exact ⟨h, rfl⟩

/-- Witness for C10: the empty-suffix half applied to a goreleaser-only
repository. -/
theorem resolver_result_shape_witness :
    (find_cli_entrypoints
      (RepoWorld.mk ContentsResult.error (fun p => p == ".goreleaser.yml") true none)
      "tool").1 = [("tool", "")] ∧ "tool" = "tool" :=
  (resolver_result_shape
    (RepoWorld.mk ContentsResult.error (fun p => p == ".goreleaser.yml") true none)
    "tool").2 "tool" "" (by decide) rfl

/-- C7: a fetch whose reported remaining quota is below the safety buffer
sleeps for exactly max(reset - now, 0) plus the 5 second grace margin
before proceeding; a fetch at or above the buffer does not sleep; and the
dedicated rate-limit probe applies the same wait on a 200 response. -/
theorem rate_limit_wait (info : RateInfo) (now : Int) (status : Nat) :
    (info.remaining < RATE_LIMIT_BUFFER →
        api_get_sleep info now = some (max (info.reset - now) 0 + 5)) ∧
    (RATE_LIMIT_BUFFER ≤ info.remaining → api_get_sleep info now = none) ∧
    (status = 200 → check_rate_limit_sleep status info now = api_get_sleep info now) := by
  refine ⟨fun h => ?_, fun h => ?_, fun h => ?_⟩
  · simp [api_get_sleep, h]
  · simp [api_get_sleep, not_lt.mpr h]
  · subst h
    simp [check_rate_limit_sleep, api_get_sleep]

/-- Witness for C7: remaining 3 of buffer 10, reset 100, now 40 gives a 65
second sleep; remaining 50 gives none. -/
theorem rate_limit_wait_witness :
    api_get_sleep (RateInfo.mk 3 100) 40 = some 65 ∧
    api_get_sleep (RateInfo.mk 50 100) 40 = none :=
  ⟨by rw [(rate_limit_wait (RateInfo.mk 3 100) 40 200).1 (by decide)]; rfl,
   (rate_limit_wait (RateInfo.mk 50 100) 40 200).2.1 (by decide)⟩

/-! Release version and upsert lemmas -/

/-- Every row of an upserted table either was already in the table or
carries the version passed to the upsert. -/
theorem upsert_version_mem (db : List BinaryRow)
    (now name package version description repo_url : String) (stars : Int) :
    ∀ r ∈ (upsert_binary db now name package version description repo_url stars).1,
      r ∈ db ∨ r.version = version := by
  intro r hr
  unfold upsert_binary at hr
  by_cases hc : db.any (fun s => s.package == package)
  · simp only [hc, if_pos] at hr
    rcases List.mem_map.mp hr with ⟨r0, hr0, heq⟩
    by_cases hp : r0.package == package
    · right
      rw [← heq]
      simp [hp, refreshRow]
    · left
      rw [← heq]
      simpa [hp] using hr0
  · simp only [hc, if_neg] at hr
    rcases List.mem_append.mp hr with h | h
    · exact Or.inl h
    · right
      rcases List.mem_singleton.mp h with h
      rw [h]
      rfl

/-- Every row produced by the per-entrypoint loop either was already in
the table or carries the version of the repository metadata. -/
theorem processEntrypoints_version_mem (now : String) (m : RepoMeta) :
    ∀ (eps : List (String × String)) (acc : UpsertAcc),
      ∀ r ∈ (processEntrypoints now m eps acc).db, r ∈ acc.db ∨ r.version = m.version := by
  intro eps
  induction eps with
  | nil =>
      intro acc r hr
      exact Or.inl hr
  | cons ep rest ih =>
      intro acc r hr
      rw [processEntrypoints] at hr
      by_cases hc : acc.existing.contains (packagePath m.owner m.repo_name ep.2)
      · simp only [hc, if_pos] at hr
        exact ih acc r hr
      · simp only [hc, if_neg, Bool.false_eq_true, not_false_iff] at hr
        rcases ih _ r hr with h | h
        · simp only [UpsertAcc.mk] at h
          rcases upsert_version_mem acc.db now ep.1
              (packagePath m.owner m.repo_name ep.2) m.version m.description
              m.repo_url m.stars r h with h' | h'
          · exact Or.inl h'
          · exact Or.inr h'
        · exact Or.inr h

/-- Every row the driver rewrites or adds while processing one repository
carries the version resolved for that repository. -/
theorem processRepo_version_mem (pw : String → String → RepoWorld) (now : String)
    (item : SearchItem) (st : DriveState) :
    ∀ r ∈ (processRepo pw now item st).db,
      r ∈ st.db ∨ r.version = get_latest_release (pw item.ownerLogin item.name) := by
  intro r hr
  unfold processRepo at hr
  by_cases he : (find_cli_entrypoints (pw item.ownerLogin item.name) item.name).1.isEmpty
  · simp only [he, if_pos] at hr
    exact Or.inl hr
  · simp only [he, if_neg, Bool.false_eq_true, not_false_iff] at hr
    exact processEntrypoints_version_mem now _ _ _ r hr

/-- C9: a non-200 latest-release response makes the resolved version the
literal "latest"; a 200 response makes it the returned tag name,
defaulting to "latest" when the body carries none; and every row the
driver adds or rewrites while processing a repository carries exactly the
version resolved for that repository. -/
theorem release_version_default (w : RepoWorld) :
    (w.releaseOk = false → get_latest_release w = "latest") ∧
    (w.releaseOk = true → get_latest_release w = w.releaseTag.getD "latest") ∧
    (∀ (pw : String → String → RepoWorld) (now : String) (item : SearchItem)
        (st : DriveState),
      ∀ r ∈ (processRepo pw now item st).db,
        r ∈ st.db ∨ r.version = get_latest_release (pw item.ownerLogin item.name)) := by
  refine ⟨fun h => ?_, fun h => ?_, processRepo_version_mem⟩
  · simp [get_latest_release, h]
  · simp [get_latest_release, h]

/-- Witness for C9: a 404 release response resolves to "latest", a 200
response without tag also, a 200 with tag v1.2 resolves to v1.2. -/
theorem release_version_default_witness :
    get_latest_release (RepoWorld.mk ContentsResult.error (fun _ => false) false (some "v9")) =
      "latest" ∧
    get_latest_release (RepoWorld.mk ContentsResult.error (fun _ => false) true none) =
      "latest" ∧
    get_latest_release (RepoWorld.mk ContentsResult.error (fun _ => false) true (some "v1.2")) =
      "v1.2" :=
  ⟨(release_version_default
      (RepoWorld.mk ContentsResult.error (fun _ => false) false (some "v9"))).1 rfl,
   (release_version_default
      (RepoWorld.mk ContentsResult.error (fun _ => false) true none)).2.1 rfl,
   (release_version_default
      (RepoWorld.mk ContentsResult.error (fun _ => false) true (some "v1.2"))).2.1 rfl⟩

/-- C5: an upsert whose package key already exists rewrites exactly the
conflicting row, refreshing only version, description, repo_url, stars
and updated_at while name, build_status, build_flags, build_error,
last_verified and created_at keep their previous values; an upsert of a
fresh package appends a row whose build_status is the default "unknown",
with empty build_flags object and NULL build_error and last_verified. -/
theorem upsert_conflict_frame (db : List BinaryRow)
    (now name package version description repo_url : String) (stars : Int) :
    ((∃ r0 ∈ db, r0.package = package) →
      (upsert_binary db now name package version description repo_url stars).1 =
        db.map (fun r =>
          if r.package == package then
            BinaryRow.mk r.name r.package version description repo_url stars
              r.build_status r.build_flags r.build_error r.last_verified r.created_at now
          else r)) ∧
    ((∀ r0 ∈ db, r0.package ≠ package) →
      (upsert_binary db now name package version description repo_url stars).1 =
        db ++ [BinaryRow.mk name package version description repo_url stars
          "unknown" "\x7b\x7d" none none now now]) := by
  constructor
  · intro h
    have hany : db.any (fun s => s.package == package) = true := by
      rcases h with ⟨r0, hr0, hp⟩
      exact List.any_eq_true.mpr ⟨r0, hr0, beq_iff_eq.mpr hp⟩
    unfold upsert_binary
    simp only [hany, if_pos]
    refine List.map_congr_left ?_
    intro r _
    by_cases hp : r.package == package
    · simp only [hp, if_pos]
      cases r
      rfl
    · simp [hp]
  · intro h
    have hany : db.any (fun s => s.package == package) = false := by
      rw [← Bool.not_eq_true]
      intro hc
      rcases List.any_eq_true.mp hc with ⟨r0, hr0, hp⟩
      exact h r0 hr0 (beq_iff_eq.mp hp)
    unfold upsert_binary
    simp only [hany, Bool.false_eq_true, if_neg, not_false_iff]
    rfl

/-- Witness for C5: a conflicting upsert refreshes stars and updated_at of
the stored row but keeps its build_status, build_flags, build_error and
last_verified; a fresh upsert gets build_status unknown. -/
theorem upsert_conflict_frame_witness :
    (upsert_binary
        [BinaryRow.mk "y" "github.com/x/y" "v1" "d" "u" 5 "confirmed" "\x7b\x7d"
          (some "boom") (some "t0") "t0" "t0"]
        "t1" "y" "github.com/x/y" "v2" "d2" "u2" 9).1 =
      [BinaryRow.mk "y" "github.com/x/y" "v2" "d2" "u2" 9 "confirmed" "\x7b\x7d"
        (some "boom") (some "t0") "t0" "t1"] ∧
    (upsert_binary [] "t1" "y" "github.com/x/y" "v2" "d2" "u2" 9).1 =
      [BinaryRow.mk "y" "github.com/x/y" "v2" "d2" "u2" 9 "unknown" "\x7b\x7d"
        none none "t1" "t1"] := by
  constructor
  · rw [(upsert_conflict_frame
        [BinaryRow.mk "y" "github.com/x/y" "v1" "d" "u" 5 "confirmed" "\x7b\x7d"
          (some "boom") (some "t0") "t0" "t0"]
        "t1" "y" "github.com/x/y" "v2" "d2" "u2" 9).1
      ⟨BinaryRow.mk "y" "github.com/x/y" "v1" "d" "u" 5 "confirmed" "\x7b\x7d"
          (some "boom") (some "t0") "t0" "t0", by decide, rfl⟩]
    rfl
  · rw [(upsert_conflict_frame [] "t1" "y" "github.com/x/y" "v2" "d2" "u2" 9).2
      (by intro r0 h; cases h)]
    rfl

/-- C6 divergence: upserting a package key that is already present in the
table still returns true. The docstring of upsert_binary promises that
the boolean reports whether a new row was inserted, but its Python return
value, lastrowid is not None and rowcount equals 1, also holds on the
conflict-update branch: lastrowid stays an integer and sqlite counts the
updated conflicting row as one change. -/
theorem upsert_inserted_flag_on_conflict :
    (upsert_binary
        [BinaryRow.mk "y" "github.com/x/y" "v1" "d" "u" 5 "unknown" "\x7b\x7d"
          none none "t0" "t0"]
        "t1" "y" "github.com/x/y" "v2" "d2" "u2" 9).2 = true := by
  decide

/-! Pagination lemmas -/

/-- Unfolding equation of the page loop with fuel left. -/
theorem runQueryPages_succ (s : Nat → SearchResponse) (scanned : List String)
    (fuel page : Nat) (st : SearchState) :
    runQueryPages s scanned (fuel + 1) page st =
      match s page with
      | .failure _ => (st, 1)
      | .success items =>
          if items.isEmpty then (st, 1)
          else
            let st' := processItems scanned items st
            let r := runQueryPages s scanned fuel (page + 1) st'
            (r.1, r.2 + 1) := rfl

/-- Shape of the page loop: with fuel left it requests between one and
fuel pages; all requested pages before the last continue the loop; and
when it stops before exhausting the fuel, the last requested page was a
non-200 or empty response. -/
theorem runQueryPages_shape (s : Nat → SearchResponse) (scanned : List String) :
    ∀ (fuel page : Nat) (st : SearchState),
      ∃ m, (runQueryPages s scanned (fuel + 1) page st).2 = m + 1 ∧ m ≤ fuel ∧
        (∀ k, k < m → isContinue (s (page + k)) = true) ∧
        ((runQueryPages s scanned (fuel + 1) page st).2 < fuel + 1 →
          isContinue (s (page + m)) = false) := by
  intro fuel
  induction fuel with
  | zero =>
      intro page st
      have hc1 : (runQueryPages s scanned (0 + 1) page st).2 = 1 := by
        rw [runQueryPages_succ]
        cases hs : s page with
        | failure c => rfl
        | success items =>
            by_cases he : items.isEmpty
            · simp [he]
            · simp [he, runQueryPages]
      refine ⟨0, hc1, Nat.le_refl 0, fun k hk => absurd hk (Nat.not_lt_zero k), ?_⟩
      intro h
      rw [hc1] at h
      exact absurd h (lt_irrefl 1)
  | succ f ih =>
      intro page st
      rw [runQueryPages_succ]
      cases hs : s page with
      | failure c =>
          refine ⟨0, rfl, Nat.zero_le _, fun k hk => absurd hk (Nat.not_lt_zero k), ?_⟩
          intro _
          simp [isContinue, hs]
      | success items =>
          by_cases he : items.isEmpty
          · refine ⟨0, by simp [he], Nat.zero_le _,
              fun k hk => absurd hk (Nat.not_lt_zero k), ?_⟩
            intro _
            simp [isContinue, hs, he]
          · rcases ih (page + 1) (processItems scanned items st) with
              ⟨m, heq, hle, hcont, hstop⟩
            refine ⟨m + 1, ?_, Nat.succ_le_succ hle, ?_, ?_⟩
            · simp only [he, if_neg, Bool.false_eq_true, not_false_iff]
              rw [heq]
            · intro k hk
              cases k with
              | zero =>
                  simpa [isContinue, hs] using he
              | succ k' =>
                  have hk' : k' < m := Nat.lt_of_succ_lt_succ hk
                  have harith : page + (k' + 1) = page + 1 + k' := by omega
                  rw [harith]
                  exact hcont k' hk'
            · intro hlt
              have hlt' : (runQueryPages s scanned (f + 1) (page + 1)
                  (processItems scanned items st)).2 < f + 1 := by
                simp only [he, if_neg, Bool.false_eq_true, not_false_iff] at hlt
                omega
              have harith : page + (m + 1) = page + 1 + m := by omega
              rw [harith]
              exact hstop hlt'

/-- Shape of the query loop: the page-count trace covers every query in
order, each query requests between one and MAX_PAGES_PER_QUERY pages, all
requested pages before the last continue, and an early stop happens
exactly at a non-200 or empty page. -/
theorem runQueries_shape (s : String → Nat → SearchResponse) (scanned : List String) :
    ∀ (qs : List String) (st : SearchState),
      (runQueries s scanned qs st).2.length = qs.length ∧
      ∀ qn ∈ qs.zip (runQueries s scanned qs st).2,
        1 ≤ qn.2 ∧ qn.2 ≤ MAX_PAGES_PER_QUERY ∧
        (∀ p, 1 ≤ p → p < qn.2 → isContinue (s qn.1 p) = true) ∧
        (qn.2 < MAX_PAGES_PER_QUERY → isContinue (s qn.1 qn.2) = false) := by
  intro qs
  induction qs with
  | nil =>
      intro st
      exact ⟨rfl, fun qn h => absurd h (List.not_mem_nil qn)⟩
  | cons q rest ih =>
      intro st
      constructor
      · simp only [runQueries, List.length_cons]
        rw [(ih _).1]
      · intro qn hqn
        simp only [runQueries, List.zip_cons_cons] at hqn
        rcases List.mem_cons.mp hqn with h | h
        · subst h
          have hmax : MAX_PAGES_PER_QUERY = 2 + 1 := rfl
          rcases runQueryPages_shape (s q) scanned 2 1 st with ⟨m, heq, hle, hcont, hstop⟩
          rw [hmax, heq]
          refine ⟨Nat.succ_le_succ (Nat.zero_le m), Nat.succ_le_succ hle, ?_, ?_⟩
          · intro p hp1 hpm
            have harith : 1 + (p - 1) = p := by omega
            rw [← harith]
            exact hcont (p - 1) (by omega)
          · intro hlt
            have harith : 1 + m = m + 1 := by omega
            rw [← harith]
            exact hstop (by omega)
        · exact (ih _).2 qn h

/-- C8: in every run, each query of the fixed query list is paginated, in
order, for at least one and at most MAX_PAGES_PER_QUERY page requests;
every requested page before the last returned a 200 with a non-empty
items collection; a query that stopped before the page cap did so exactly
because its last requested page returned a non-200 status or an empty
collection; and a non-200 status never aborts the run, since the trace
still covers every query of the list. -/
theorem search_pagination_bound (s : String → Nat → SearchResponse)
    (scanned : List String) :
    (search_go_tools s scanned).2.length = SEARCH_QUERIES.length ∧
    ∀ qn ∈ SEARCH_QUERIES.zip (search_go_tools s scanned).2,
      1 ≤ qn.2 ∧ qn.2 ≤ MAX_PAGES_PER_QUERY ∧
      (∀ p, 1 ≤ p → p < qn.2 → isContinue (s qn.1 p) = true) ∧
      (qn.2 < MAX_PAGES_PER_QUERY → isContinue (s qn.1 qn.2) = false) :=
  runQueries_shape s scanned SEARCH_QUERIES (SearchState.mk [] [])

/-- Witness for C8: a search collaborator whose first query fails with a
403 on its second page and whose other queries return empty collections;
the run requests two pages for the first query, one page for each of the
six later queries, and the early stop of the first query is at its failed
second page. -/
theorem search_pagination_bound_witness :
    (search_go_tools
        (fun q p =>
          if q == "topic:go+topic:cli" then
            (if p == 1 then
              SearchResponse.success [SearchItem.mk 1 "x" "y" none (some 5) none]
            else SearchResponse.failure 403)
          else SearchResponse.success [])
        []).2 = [2, 1, 1, 1, 1, 1, 1] ∧
    isContinue
      ((fun q p =>
          if q == "topic:go+topic:cli" then
            (if p == 1 then
              SearchResponse.success [SearchItem.mk 1 "x" "y" none (some 5) none]
            else SearchResponse.failure 403)
          else SearchResponse.success []) "topic:go+topic:cli" 2) = false := by
  constructor
  · rfl
  · exact (search_pagination_bound
      (fun q p =>
        if q == "topic:go+topic:cli" then
          (if p == 1 then
            SearchResponse.success [SearchItem.mk 1 "x" "y" none (some 5) none]
          else SearchResponse.failure 403)
        else SearchResponse.success [])
      []).2 ("topic:go+topic:cli", 2) (by decide) |>.2.2.2 (by decide)

/-! Fruitless repositories and scanned-set marking -/

/-- has_goreleaser_config yields false when every candidate probe fails. -/
theorem has_goreleaser_config_false (ex : String → Bool) :
    ∀ paths : List String, (∀ p ∈ paths, ex p = false) →
      (has_goreleaser_config paths ex).1 = false := by
  intro paths
  induction paths with
  | nil => intro _; rfl
  | cons p ps ih =>
      intro h
      have hp : ex p = false := h p (List.mem_cons_self p ps)
      simp only [has_goreleaser_config, hp, Bool.false_eq_true, if_neg, not_false_iff]
      exact ih (fun q hq => h q (List.mem_cons_of_mem p hq))

/-- The resolver returns the empty sequence when no rule matches. -/
theorem resolver_empty (w : RepoWorld) (repo_name : String)
    (h1 : ∀ entries, w.cmdContents = ContentsResult.listing entries →
        entries.filter (fun e => e.type == "dir") = [])
    (h2 : w.fileExists "main.go" = false)
    (h3 : ∀ p ∈ goreleaserPaths, w.fileExists p = false) :
    (find_cli_entrypoints w repo_name).1 = [] := by
  have hg : (has_goreleaser_config goreleaserPaths w.fileExists).1 = false :=
    has_goreleaser_config_false _ _ h3
  unfold find_cli_entrypoints
  cases hc : w.cmdContents with
  | error => simp [h2, hg]
  | file => simp [h2, hg]
  | listing entries => simp [h1 entries hc, h2, hg]

/-- Inserting a key into the scanned set puts it there. -/
theorem setAdd_mem_self (s : List String) (k : String) : k ∈ setAdd s k := by
  unfold setAdd
  by_cases h : s.contains k = true
  · simp only [h, if_pos]
    exact List.elem_iff.mp h
  · simp only [h, if_neg, not_false_iff]
    exact List.mem_append.mpr (Or.inr (List.mem_singleton.mpr rfl))

/-- Inserting a key into the scanned set keeps its members. -/
theorem setAdd_mem_of_mem (s : List String) (k a : String) (h : a ∈ s) :
    a ∈ setAdd s k := by
  unfold setAdd
  by_cases hc : s.contains k = true
  · simp only [hc, if_pos]
    exact h
  · simp only [hc, if_neg, not_false_iff]
    exact List.mem_append.mpr (Or.inl h)

/-- The scanned set after one driver step is exactly the old set with the
key of the processed repository inserted, whatever the resolver found. -/
theorem processRepo_scanned (pw : String → String → RepoWorld) (now : String)
    (item : SearchItem) (st : DriveState) :
    (processRepo pw now item st).scanned = setAdd st.scanned (repoKey item) := rfl

/-- The driver loop never removes a key from the scanned set. -/
theorem driveRepos_scanned_mono (pw : String → String → RepoWorld) (now : String) :
    ∀ (items : List SearchItem) (st : DriveState) (a : String),
      a ∈ st.scanned → a ∈ (driveRepos pw now items st).scanned := by
  intro items
  induction items with
  | nil => intro st a h; exact h
  | cons item rest ih =>
      intro st a h
      rw [driveRepos]
      apply ih
      rw [processRepo_scanned]
      exact setAdd_mem_of_mem _ _ _ h

/-- The driver loop marks every processed repository as scanned. -/
theorem driveRepos_marks (pw : String → String → RepoWorld) (now : String) :
    ∀ (items : List SearchItem) (st : DriveState) (item : SearchItem),
      item ∈ items → repoKey item ∈ (driveRepos pw now items st).scanned := by
  intro items
  induction items with
  | nil => intro st item h; exact absurd h (List.not_mem_nil item)
  | cons hd rest ih =>
      intro st item h
      rcases List.mem_cons.mp h with h | h
      · subst h
        rw [driveRepos]
        apply driveRepos_scanned_mono
        rw [processRepo_scanned]
        exact setAdd_mem_self _ _
      · rw [driveRepos]
        exact ih _ item h

/-- C3: for a repository matched by no resolver rule -- no directory-typed
cmd entry, no root main.go, none of the four goreleaser configuration
names -- the resolver returns the empty sequence; and the driver adds the
owner/repo key of every repository it processes to the scanned set,
whether or not entrypoints were found for it. -/
theorem fruitless_repo_still_scanned (w : RepoWorld) (repo_name : String)
    (h1 : ∀ entries, w.cmdContents = ContentsResult.listing entries →
        entries.filter (fun e => e.type == "dir") = [])
    (h2 : w.fileExists "main.go" = false)
    (h3 : ∀ p ∈ goreleaserPaths, w.fileExists p = false) :
    (find_cli_entrypoints w repo_name).1 = [] ∧
    ∀ (pw : String → String → RepoWorld) (now : String) (items : List SearchItem)
      (st : DriveState) (item : SearchItem), item ∈ items →
      repoKey item ∈ (driveRepos pw now items st).scanned :=
  ⟨resolver_empty w repo_name h1 h2 h3,
   fun pw now items st item h => driveRepos_marks pw now items st item h⟩

/-- Witness for C3: a repository every probe of which fails resolves to no
entrypoints and is still marked scanned by the driver. -/
theorem fruitless_repo_still_scanned_witness :
    (find_cli_entrypoints
      (RepoWorld.mk ContentsResult.error (fun _ => false) false none) "t").1 = [] ∧
    repoKey (SearchItem.mk 1 "x" "y" none none none) ∈
      (driveRepos (fun _ _ => RepoWorld.mk ContentsResult.error (fun _ => false) false none)
        "t0" [SearchItem.mk 1 "x" "y" none none none]
        (DriveState.mk [] [] [] 0)).scanned := by
  have h := fruitless_repo_still_scanned
    (RepoWorld.mk ContentsResult.error (fun _ => false) false none) "t"
    (by intro entries hc; cases hc) rfl (by intro p _; rfl)
  exact ⟨h.1,
    h.2 (fun _ _ => RepoWorld.mk ContentsResult.error (fun _ => false) false none) "t0"
      [SearchItem.mk 1 "x" "y" none none none] (DriveState.mk [] [] [] 0)
      (SearchItem.mk 1 "x" "y" none none none) (List.mem_singleton.mpr rfl)⟩

/-! Dedupe-loop representation of the search -/

/-- A true conjunction of negations forces both operands false. -/
theorem band_not_eq_true (a b : Bool) (hc : (!a && !b) = true) :
    a = false ∧ b = false := by
  simp at hc
  exact hc

/-- A true left operand falsifies the dedupe condition. -/
theorem band_not_false_left (a b : Bool) (ha : a = true) : (!a && !b) = false := by
  subst ha
  rfl

/-- A true right operand falsifies the dedupe condition. -/
theorem band_not_false_right (a b : Bool) (hb : b = true) : (!a && !b) = false := by
  subst hb
  simp

/-- Processing a concatenated item stream processes the two halves in
sequence. -/
theorem processItems_append (sc : List String) :
    ∀ (a b : List SearchItem) (st : SearchState),
      processItems sc (a ++ b) st = processItems sc b (processItems sc a st) := by
  intro a
  induction a with
  | nil => intro b st; rfl
  | cons i rest ih =>
      intro b st
      simp only [List.cons_append, processItems]
      exact ih b _

/-- The state of the page loop is the dedupe loop run over the item
stream of the fetched pages. -/
theorem runQueryPages_state (s : Nat → SearchResponse) (sc : List String) :
    ∀ (fuel page : Nat) (st : SearchState),
      (runQueryPages s sc fuel page st).1 = processItems sc (pageItems s fuel page) st := by
  intro fuel
  induction fuel with
  | zero => intro page st; rfl
  | succ f ih =>
      intro page st
      rw [runQueryPages_succ]
      cases hs : s page with
      | failure c =>
          have hp : pageItems s (f + 1) page = [] := by rw [pageItems, hs]
          rw [hp]
          rfl
      | success items =>
          by_cases he : items.isEmpty
          · have hp : pageItems s (f + 1) page = [] := by
              simp only [pageItems, hs, he, if_true]
            rw [hp]
            simp only [he, if_pos]
            rfl
          · have hp : pageItems s (f + 1) page = items ++ pageItems s f (page + 1) := by
              simp only [pageItems, hs, he, Bool.false_eq_true, if_neg, not_false_iff]
            rw [hp, processItems_append]
            simp only [he, Bool.false_eq_true, if_neg, not_false_iff]
            exact ih (page + 1) _

/-- The state of the query loop is the dedupe loop run over the whole
seen-item stream. -/
theorem runQueries_state (s : String → Nat → SearchResponse) (sc : List String) :
    ∀ (qs : List String) (st : SearchState),
      (runQueries s sc qs st).1 = processItems sc (seenItems s qs) st := by
  intro qs
  induction qs with
  | nil => intro st; rfl
  | cons q rest ih =>
      intro st
      simp only [runQueries, seenItems]
      rw [processItems_append, ← runQueryPages_state]
      exact ih _

/-- The collected repositories of a search are the output of the dedupe
loop over the seen-item stream, which does not depend on the scanned set. -/
theorem search_items_eq (s : String → Nat → SearchResponse) (sc : List String) :
    (search_go_tools s sc).1 =
      (processItems sc (seenItems s SEARCH_QUERIES) (SearchState.mk [] [])).all_repos := by
  show (runQueries s sc SEARCH_QUERIES (SearchState.mk [] [])).1.all_repos = _
  rw [runQueries_state]

/-- The dedupe loop only appends to the collected repositories. -/
theorem processItems_all_repos_mono (sc : List String) :
    ∀ (L : List SearchItem) (st : SearchState) (r : SearchItem),
      r ∈ st.all_repos → r ∈ (processItems sc L st).all_repos := by
  intro L
  induction L with
  | nil => intro st r h; exact h
  | cons i rest ih =>
      intro st r h
      rw [processItems]
      by_cases hc : (!st.seen_ids.contains i.id && !sc.contains (repoKey i)) = true
      · rw [if_pos hc]
        exact ih _ r (List.mem_append.mpr (Or.inl h))
      · rw [if_neg hc]
        exact ih _ r h

/-- Everything the dedupe loop collects beyond its initial state comes
from the input stream and was not in the scanned set. -/
theorem processItems_new_mem (sc : List String) :
    ∀ (L : List SearchItem) (st : SearchState) (r : SearchItem),
      r ∈ (processItems sc L st).all_repos →
      r ∈ st.all_repos ∨ (r ∈ L ∧ repoKey r ∉ sc) := by
  intro L
  induction L with
  | nil => intro st r h; exact Or.inl h
  | cons i rest ih =>
      intro st r h
      rw [processItems] at h
      by_cases hc : (!st.seen_ids.contains i.id && !sc.contains (repoKey i)) = true
      · rw [if_pos hc] at h
        rcases ih _ r h with h' | ⟨hmem, hkey⟩
        · rcases List.mem_append.mp h' with h'' | h''
          · exact Or.inl h''
          · have hri : r = i := List.mem_singleton.mp h''
            subst hri
            refine Or.inr ⟨List.mem_cons_self r rest, ?_⟩
            have hkc : sc.contains (repoKey r) = false :=
              (band_not_eq_true _ _ hc).2
            intro hmem
            have hcont : sc.contains (repoKey r) = true := List.elem_iff.mpr hmem
            rw [hcont] at hkc
            exact Bool.noConfusion hkc
        · exact Or.inr ⟨List.mem_cons_of_mem i hmem, hkey⟩
      · rw [if_neg hc] at h
        rcases ih _ r h with h' | ⟨hmem, hkey⟩
        · exact Or.inl h'
        · exact Or.inr ⟨List.mem_cons_of_mem i hmem, hkey⟩

/-- The dedupe loop preserves the invariant that every recorded id has a
collected witness repository. -/
theorem processItems_seen_inv (sc : List String) :
    ∀ (L : List SearchItem) (st : SearchState),
      (∀ n ∈ st.seen_ids, ∃ r ∈ st.all_repos, r.id = n) →
      ∀ n ∈ (processItems sc L st).seen_ids,
        ∃ r ∈ (processItems sc L st).all_repos, r.id = n := by
  intro L
  induction L with
  | nil => intro st h n hn; exact h n hn
  | cons i rest ih =>
      intro st h
      rw [processItems]
      by_cases hc : (!st.seen_ids.contains i.id && !sc.contains (repoKey i)) = true
      · rw [if_pos hc]
        apply ih
        intro n hn
        rcases List.mem_append.mp hn with h' | h'
        · rcases h n h' with ⟨r, hr, hid⟩
          exact ⟨r, List.mem_append.mpr (Or.inl hr), hid⟩
        · exact ⟨i, List.mem_append.mpr (Or.inr (List.mem_singleton.mpr rfl)),
            (List.mem_singleton.mp h').symm⟩
      · rw [if_neg hc]
        exact ih st h

/-- Coverage: every item of the input stream either has its key in the
scanned set, or shares its id with some collected repository. -/
theorem processItems_coverage (sc : List String) :
    ∀ (L : List SearchItem) (st : SearchState),
      (∀ n ∈ st.seen_ids, ∃ r ∈ st.all_repos, r.id = n) →
      ∀ i ∈ L, repoKey i ∈ sc ∨
        ∃ r ∈ (processItems sc L st).all_repos, r.id = i.id := by
  intro L
  induction L with
  | nil => intro st _ i hi; exact absurd hi (List.not_mem_nil i)
  | cons j rest ih =>
      intro st hinv i hi
      rcases List.mem_cons.mp hi with hij | hi'
      · subst hij
        by_cases hc : (!st.seen_ids.contains i.id && !sc.contains (repoKey i)) = true
        · refine Or.inr ⟨i, ?_, rfl⟩
          rw [processItems, if_pos hc]
          exact processItems_all_repos_mono sc rest _ i
            (List.mem_append.mpr (Or.inr (List.mem_singleton.mpr rfl)))
        · by_cases hk : sc.contains (repoKey i) = true
          · exact Or.inl (List.elem_iff.mp hk)
          · have haf : st.seen_ids.contains i.id = true := by
              cases hx : st.seen_ids.contains i.id with
              | true => rfl
              | false =>
                  exfalso
                  apply hc
                  have hkf : sc.contains (repoKey i) = false := by
                    cases hy : sc.contains (repoKey i) with
                    | true => exact absurd hy hk
                    | false => rfl
                  rw [hx, hkf]
                  rfl
            rcases hinv i.id (List.elem_iff.mp haf) with ⟨r, hr, hid⟩
            refine Or.inr ⟨r, ?_, hid⟩
            rw [processItems, if_neg hc]
            exact processItems_all_repos_mono sc rest st r hr
      · by_cases hc : (!st.seen_ids.contains j.id && !sc.contains (repoKey j)) = true
        · have := ih (SearchState.mk (st.seen_ids ++ [j.id]) (st.all_repos ++ [j]))
            ?_ i hi'
          · rcases this with h | ⟨r, hr, hid⟩
            · exact Or.inl h
            · refine Or.inr ⟨r, ?_, hid⟩
              rw [processItems, if_pos hc]
              exact hr
          · intro n hn
            rcases List.mem_append.mp hn with h' | h'
            · rcases hinv n h' with ⟨r, hr, hid⟩
              exact ⟨r, List.mem_append.mpr (Or.inl hr), hid⟩
            · exact ⟨j, List.mem_append.mpr (Or.inr (List.mem_singleton.mpr rfl)),
                (List.mem_singleton.mp h').symm⟩
        · have := ih st hinv i hi'
          rcases this with h | ⟨r, hr, hid⟩
          · exact Or.inl h
          · refine Or.inr ⟨r, ?_, hid⟩
            rw [processItems, if_neg hc]
            exact hr

/-- The dedupe loop collects nothing when every item of the stream has
its key in the scanned set. -/
theorem processItems_stable (sc : List String) :
    ∀ (L : List SearchItem) (st : SearchState),
      (∀ i ∈ L, sc.contains (repoKey i) = true) →
      processItems sc L st = st := by
  intro L
  induction L with
  | nil => intro st _; rfl
  | cons i rest ih =>
      intro st h
      rw [processItems]
      rw [if_neg]
      · exact ih st (fun j hj => h j (List.mem_cons_of_mem i hj))
      · intro hc
        have := band_not_false_right (st.seen_ids.contains i.id)
          (sc.contains (repoKey i)) (h i (List.mem_cons_self i rest))
        rw [this] at hc
        exact Bool.noConfusion hc

/-- Every item of the per-query stream comes from some success page of
that query. -/
theorem pageItems_sources (s : Nat → SearchResponse) :
    ∀ (fuel page : Nat) (i : SearchItem), i ∈ pageItems s fuel page →
      ∃ p items, s p = SearchResponse.success items ∧ i ∈ items := by
  intro fuel
  induction fuel with
  | zero => intro page i h; exact absurd h (List.not_mem_nil i)
  | succ f ih =>
      intro page i h
      cases hs : s page with
      | failure c =>
          rw [show pageItems s (f + 1) page = [] from by rw [pageItems, hs]] at h
          exact absurd h (List.not_mem_nil i)
      | success items =>
          by_cases he : items.isEmpty
          · rw [show pageItems s (f + 1) page = [] from by
              simp only [pageItems, hs, he, if_true]] at h
            exact absurd h (List.not_mem_nil i)
          · rw [show pageItems s (f + 1) page = items ++ pageItems s f (page + 1) from by
              simp only [pageItems, hs, he, Bool.false_eq_true, if_neg, not_false_iff]] at h
            rcases List.mem_append.mp h with h' | h'
            · exact ⟨page, items, hs, h'⟩
            · exact ih (page + 1) i h'

/-- Every item of the seen stream comes from some success page of some
query. -/
theorem seenItems_sources (s : String → Nat → SearchResponse) :
    ∀ (qs : List String) (i : SearchItem), i ∈ seenItems s qs →
      ∃ q p items, s q p = SearchResponse.success items ∧ i ∈ items := by
  intro qs
  induction qs with
  | nil => intro i h; exact absurd h (List.not_mem_nil i)
  | cons q rest ih =>
      intro i h
      rw [seenItems] at h
      rcases List.mem_append.mp h with h' | h'
      · rcases pageItems_sources (s q) MAX_PAGES_PER_QUERY 1 i h' with ⟨p, items, hs, hmem⟩
        exact ⟨q, p, items, hs, hmem⟩
      · exact ih i h'

/-! Idempotence of the driver -/

/-- Scanned-set projection of a run. -/
theorem mainRun_scanned_eq (w : World) (now : String) (db0 : List BinaryRow)
    (scanned0 : List String) :
    (mainRun w now db0 scanned0).scanned =
      (driveRepos w.repoWorld now (search_go_tools w.search scanned0).1
        (DriveState.mk db0 (get_existing_packages db0) scanned0 0)).scanned := rfl

/-- Store projection of a run. -/
theorem mainRun_db_eq (w : World) (now : String) (db0 : List BinaryRow)
    (scanned0 : List String) :
    (mainRun w now db0 scanned0).db =
      (driveRepos w.repoWorld now (search_go_tools w.search scanned0).1
        (DriveState.mk db0 (get_existing_packages db0) scanned0 0)).db := rfl

/-- Counter projection of a run. -/
theorem mainRun_count_eq (w : World) (now : String) (db0 : List BinaryRow)
    (scanned0 : List String) :
    (mainRun w now db0 scanned0).count =
      (driveRepos w.repoWorld now (search_go_tools w.search scanned0).1
        (DriveState.mk db0 (get_existing_packages db0) scanned0 0)).count := rfl

/-- Visited projection of a run. -/
theorem mainRun_visited_eq (w : World) (now : String) (db0 : List BinaryRow)
    (scanned0 : List String) :
    (mainRun w now db0 scanned0).visited =
      ((search_go_tools w.search scanned0).1).map repoKey := rfl

/-- C4: with a consistent search collaborator -- two result items with
the same repository id name the same repository -- a second run of the
driver against unchanged search responses and unchanged repository
contents visits no repository at all, so no contents or release probe is
issued for anything, inserts zero new binaries, and leaves both the store
and the scanned set exactly as the first run left them; and in any run a
repository whose key is already in the scanned set the run started from
is filtered out before any probing, so it is never among the visited
repositories. -/
theorem driver_idempotent (w : World) (now now' : String)
    (db0 : List BinaryRow) (scanned0 : List String)
    (hcons : ConsistentSearch w.search) :
    ((mainRun w now' (mainRun w now db0 scanned0).db
        (mainRun w now db0 scanned0).scanned).count = 0 ∧
     (mainRun w now' (mainRun w now db0 scanned0).db
        (mainRun w now db0 scanned0).scanned).db = (mainRun w now db0 scanned0).db ∧
     (mainRun w now' (mainRun w now db0 scanned0).db
        (mainRun w now db0 scanned0).scanned).scanned =
       (mainRun w now db0 scanned0).scanned ∧
     (mainRun w now' (mainRun w now db0 scanned0).db
        (mainRun w now db0 scanned0).scanned).visited = []) ∧
    (∀ k ∈ (mainRun w now db0 scanned0).visited, k ∉ scanned0) := by
  have hrepos1 : (search_go_tools w.search scanned0).1 =
      (processItems scanned0 (seenItems w.search SEARCH_QUERIES)
        (SearchState.mk [] [])).all_repos :=
    search_items_eq w.search scanned0
  have hpart2 : ∀ k ∈ (mainRun w now db0 scanned0).visited, k ∉ scanned0 := by
    intro k hk
    rw [mainRun_visited_eq] at hk
    rcases List.mem_map.mp hk with ⟨r, hr, hkey⟩
    rw [hrepos1] at hr
    rcases processItems_new_mem scanned0 (seenItems w.search SEARCH_QUERIES)
        (SearchState.mk [] []) r hr with h | ⟨_, hnot⟩
    · exact absurd h (List.not_mem_nil r)
    · rw [← hkey]
      exact hnot
  have hscan1mono : ∀ a ∈ scanned0, a ∈ (mainRun w now db0 scanned0).scanned := by
    intro a ha
    rw [mainRun_scanned_eq]
    exact driveRepos_scanned_mono _ _ _ _ a ha
  have hmarks : ∀ r ∈ (search_go_tools w.search scanned0).1,
      repoKey r ∈ (mainRun w now db0 scanned0).scanned := by
    intro r hr
    rw [mainRun_scanned_eq]
    exact driveRepos_marks _ _ _ _ r hr
  have hconsL : ∀ i ∈ seenItems w.search SEARCH_QUERIES,
      ∀ j ∈ seenItems w.search SEARCH_QUERIES, i.id = j.id → repoKey i = repoKey j := by
    intro i hi j hj hid
    rcases seenItems_sources w.search SEARCH_QUERIES i hi with ⟨q, p, items, hs, hmem⟩
    rcases seenItems_sources w.search SEARCH_QUERIES j hj with ⟨q', p', items', hs', hmem'⟩
    exact hcons q p q' p' items items' i j hs hmem hs' hmem' hid
  have hcover : ∀ i ∈ seenItems w.search SEARCH_QUERIES,
      (mainRun w now db0 scanned0).scanned.contains (repoKey i) = true := by
    intro i hi
    rcases processItems_coverage scanned0 (seenItems w.search SEARCH_QUERIES)
        (SearchState.mk [] []) (fun n hn => absurd hn (List.not_mem_nil n)) i hi with
      h | ⟨r, hr, hid⟩
    · exact List.elem_iff.mpr (hscan1mono _ h)
    · have hrL : r ∈ seenItems w.search SEARCH_QUERIES := by
        rcases processItems_new_mem scanned0 (seenItems w.search SEARCH_QUERIES)
            (SearchState.mk [] []) r hr with h' | ⟨h', _⟩
        · exact absurd h' (List.not_mem_nil r)
        · exact h'
      have hkeq : repoKey r = repoKey i := hconsL r hrL i hi hid
      have hmem : repoKey r ∈ (mainRun w now db0 scanned0).scanned := by
        apply hmarks
        rw [hrepos1]
        exact hr
      rw [hkeq] at hmem
      exact List.elem_iff.mpr hmem
  have hrepos2 : (search_go_tools w.search (mainRun w now db0 scanned0).scanned).1 = [] := by
    rw [search_items_eq, processItems_stable _ _ _ hcover]
  refine ⟨⟨?_, ?_, ?_, ?_⟩, hpart2⟩
  · rw [mainRun_count_eq, hrepos2]
    rfl
  · rw [mainRun_db_eq, hrepos2]
    rfl
  · rw [mainRun_scanned_eq, hrepos2]
    rfl
  · rw [mainRun_visited_eq, hrepos2]
    rfl

/-- Witness for C4: against the concrete collaborator environment, the
second run inserts nothing and visits nothing. -/
theorem driver_idempotent_witness :
    (mainRun exWorld "t1" (mainRun exWorld "t0" [] []).db
      (mainRun exWorld "t0" [] []).scanned).count = 0 ∧
    (mainRun exWorld "t1" (mainRun exWorld "t0" [] []).db
      (mainRun exWorld "t0" [] []).scanned).visited = [] := by
  have hcons : ConsistentSearch exWorld.search := by
    intro q p q' p' items items' i i' hs hi hs' hi' _
    have h1 : items = [exItem] := by
      cases hs
      rfl
    have h2 : items' = [exItem] := by
      cases hs'
      rfl
    rw [h1] at hi
    rw [h2] at hi'
    rw [List.mem_singleton.mp hi, List.mem_singleton.mp hi']
  have h := driver_idempotent exWorld "t0" "t1" [] [] hcons
  exact ⟨h.1.1, h.1.2.2.2⟩

end GoManager
